import Mathlib

/-!
Verification of network-analyzer: handshake classifier and conntrack parser.

A shallow embedding of `pkg/core/tcp/handshake.go` and
`pkg/core/conntrack/conntrack.go`, with the properties of the specification
stated and settled over it.

Modelling conventions.
* A Go channel that is read until it is closed is the finite list of the items
  it delivered, in arrival order.
* Go `int` counters are `Nat`: each is only ever incremented by one per item, so
  no run reaches the word size.
* `float64` is abstracted by exact rational arithmetic (`ℚ`).
* Go strings are Lean `String`s (sequences of Unicode code points).
-/

namespace NetworkAnalyzer

namespace tcp

/-- The control flags of `layers.TCP` (gopacket). -/
structure TCP where
  FIN : Bool := false
  SYN : Bool := false
  RST : Bool := false
  PSH : Bool := false
  ACK : Bool := false
  URG : Bool := false
  ECE : Bool := false
  CWR : Bool := false
  NS : Bool := false
  deriving DecidableEq, Repr

/-- A decoded `gopacket.Packet`, reduced to what `process` reads of it:
`tcpLayer` is `some tcp` when `pkt.Layer(layers.LayerTypeTCP)` is non-nil and is a
`*layers.TCP`, and `none` otherwise. -/
structure Packet where
  tcpLayer : Option TCP
  deriving DecidableEq, Repr

/-- An item of the `<-chan interface{}`: either a `gopacket.Packet` or a value
for which the type assertion `raw.(gopacket.Packet)` fails. -/
inductive Raw where
  | other : Raw
  | packet : Packet → Raw
  deriving DecidableEq, Repr

/-- `HandshakeStats` holds SYN/SYN-ACK/RST counters. -/
structure HandshakeStats where
  SynSent : Nat := 0
  SynAckRcvd : Nat := 0
  RstRcvd : Nat := 0
  SynAckRatio : ℚ := 0

/-- `(s *HandshakeStats) process(pkt)`.  The Go statement is a tagged switch
`switch tcp.SYN { case true: ... case tcp.RST: ... }`: the tag `tcp.SYN` is
compared for equality with each case expression in turn, first with `true`,
then with `tcp.RST`. -/
def process (s : HandshakeStats) (pkt : Packet) : HandshakeStats :=
  match pkt.tcpLayer with
  | none => s
  | some tcp =>
    if tcp.SYN = true then
      if tcp.ACK then { s with SynAckRcvd := s.SynAckRcvd + 1 }
      else { s with SynSent := s.SynSent + 1 }
    else if tcp.SYN = tcp.RST then { s with RstRcvd := s.RstRcvd + 1 }
    else s

/-- One iteration of the `for raw := range packets` loop of `AnalyzeHandshake`. -/
def loopStep (stats : HandshakeStats) (raw : Raw) : HandshakeStats :=
  match raw with
  | .other => stats
  | .packet pkt => process stats pkt

/-- The statement after the loop:
`if stats.SynSent > 0 { stats.SynAckRatio = float64(SynAckRcvd) / float64(SynSent) * 100 }`. -/
def finalize (stats : HandshakeStats) : HandshakeStats :=
  if stats.SynSent > 0 then
    { stats with SynAckRatio := (stats.SynAckRcvd : ℚ) / (stats.SynSent : ℚ) * 100 }
  else stats

/-- `AnalyzeHandshake(packets)`: fold the items into a zero accumulator, then
compute the ratio once. -/
def AnalyzeHandshake (packets : List Raw) : HandshakeStats :=
  finalize (packets.foldl loopStep {})

/-- A packet carrying a TCP layer with the given flags set. -/
def tcpPacket (tcp : TCP) : Raw := .packet ⟨some tcp⟩

/-- The sequence `[SYN], [SYN,ACK], [SYN], [RST]` of the specification. -/
def handshakeSample : List Raw :=
  [tcpPacket { SYN := true }, tcpPacket { SYN := true, ACK := true },
   tcpPacket { SYN := true }, tcpPacket { RST := true }]

/-- Item predicate: a TCP item whose SYN flag is set and whose ACK flag is clear. -/
def isSyn : Raw → Bool
  | .packet ⟨some tcp⟩ => tcp.SYN && !tcp.ACK
  | _ => false

/-- Item predicate: a TCP item whose SYN and ACK flags are both set. -/
def isSynAck : Raw → Bool
  | .packet ⟨some tcp⟩ => tcp.SYN && tcp.ACK
  | _ => false

/-- Item predicate: a TCP item whose SYN flag is clear and whose RST flag is set. -/
def isRst : Raw → Bool
  | .packet ⟨some tcp⟩ => !tcp.SYN && tcp.RST
  | _ => false

/-- Item predicate: a TCP item whose SYN and RST flags are both clear. -/
def isPlain : Raw → Bool
  | .packet ⟨some tcp⟩ => !tcp.SYN && !tcp.RST
  | _ => false

end tcp

namespace conntrack

/-- `Entry` represents a single conntrack entry. -/
structure Entry where
  Proto : String := ""
  State : String := ""
  SrcIP : String := ""
  DstIP : String := ""
  SrcPort : String := ""
  DstPort : String := ""
  Timeout : Int := 0
  IPBytesIn : Nat := 0
  IPBytesOut : Nat := 0
  PacketsIn : Nat := 0
  PacketsOut : Nat := 0
  deriving DecidableEq, Repr

/-- `Counters` holds aggregated connection statistics. -/
structure Counters where
  Total : Nat := 0
  Established : Nat := 0
  SynSent : Nat := 0
  Unreplied : Nat := 0
  Other : Nat := 0
  deriving DecidableEq, Repr

/-- Go `unicode.IsSpace`: the Latin-1 spaces `\t \n \v \f \r`, space, U+0085,
U+00A0, and beyond Latin-1 the code points with the White_Space property. -/
def isSpace (c : Char) : Bool :=
  let n := c.toNat
  (9 ≤ n && n ≤ 13) || n == 32 || n == 0x85 || n == 0xA0 || n == 0x1680 ||
  (0x2000 ≤ n && n ≤ 0x200A) || n == 0x2028 || n == 0x2029 || n == 0x202F ||
  n == 0x205F || n == 0x3000

/-- Scanner behind `Fields`: `cur` is the current token, reversed. -/
def fieldsAux : List Char → List Char → List (List Char)
  | [], cur => if cur.isEmpty then [] else [cur.reverse]
  | c :: cs, cur =>
    if isSpace c then
      if cur.isEmpty then fieldsAux cs [] else cur.reverse :: fieldsAux cs []
    else fieldsAux cs (c :: cur)

/-- Go `strings.Fields`: split around each run of white space; no token is
empty. -/
def Fields (s : String) : List String :=
  (fieldsAux s.data []).map String.mk

/-- Cut a character list at the first occurrence of `sep`. -/
def cutAt (sep : Char) : List Char → Option (List Char × List Char)
  | [] => none
  | c :: cs =>
    if c = sep then some ([], cs)
    else match cutAt sep cs with
      | none => none
      | some (k, v) => some (c :: k, v)

/-- Go `strings.SplitN(s, sep, 2)` for a one-character separator: `[s]` when `sep`
does not occur in `s`, otherwise the text before the first `sep` and the text
after it. -/
def SplitN (s : String) (sep : Char) : List String :=
  match cutAt sep s.data with
  | none => [s]
  | some (k, v) => [String.mk k, String.mk v]

/-- Value of a run of decimal digits. -/
def digitsValue (ds : List Char) : Nat :=
  ds.foldl (fun acc c => 10 * acc + (c.toNat - 48)) 0

/-- Go `fmt.Sscanf(str, "%d", &x)` on a string without white space (every
argument here is part of a `Fields` token): an optional sign, then a non-empty
run of decimal digits; text after the digits is left unread.  The result is
`none` when the scan fails (no digit, or the value does not fit in 64 bits), in
which case the target keeps its value. -/
def scanInt (str : String) : Option Int :=
  let signed : Bool × List Char :=
    match str.data with
    | '+' :: r => (false, r)
    | '-' :: r => (true, r)
    | cs => (false, cs)
  let ds := signed.2.takeWhile Char.isDigit
  if ds.isEmpty then none
  else
    let v : Int := if signed.1 then -(digitsValue ds : Int) else (digitsValue ds : Int)
    if -(2 : Int) ^ 63 ≤ v ∧ v < (2 : Int) ^ 63 then some v else none

/-- Body of the `for i := 6; i < len(fields); i++` loop of `parseLine`, for
`field = fields[i]`. -/
def parseField (e : Entry) (field : String) : Entry :=
  match SplitN field '=' with
  | [k, v] =>
    if k = "src" then { e with SrcIP := v }
    else if k = "dst" then { e with DstIP := v }
    else if k = "sport" then { e with SrcPort := v }
    else if k = "dport" then { e with DstPort := v }
    else if k = "tcp_state" then { e with State := v }
    else if k = "timeout" then
      match scanInt v with
      | some t => { e with Timeout := t }
      | none => e
    else e
  | _ => e

/-- `if len(fields) > 2 { e.Proto = fields[2] }`. -/
def protoFromFields (fields : List String) (e : Entry) : Entry :=
  if h : fields.length > 2 then { e with Proto := fields[2] } else e

/-- `if e.State == "" && len(fields) > 5 { e.State = fields[5] }`. -/
def stateFromFields (fields : List String) (e : Entry) : Entry :=
  if h : e.State = "" ∧ fields.length > 5 then { e with State := fields[5] } else e

/-- `if e.State == "" { if e.Timeout > 0 { e.State = "UNREPLIED" } }`. -/
def inferState (e : Entry) : Entry :=
  if e.State = "" then
    if e.Timeout > 0 then { e with State := "UNREPLIED" } else e
  else e

/-- `parseLine(line)`: the key=value loop from index 6 over the tokens of the
line, then the three statements above.  The Go function returns
`(Entry, error)` and its only `return` is `return e, nil`. -/
def parseLine (line : String) : Except String Entry :=
  let fields := Fields line
  let e := (fields.drop 6).foldl parseField {}
  .ok (inferState (stateFromFields fields (protoFromFields fields e)))

/-- Go `bufio.MaxScanTokenSize`, the buffer limit of the `bufio.Scanner` that
`ReadConntrack` uses with its default settings. -/
def MaxScanTokenSize : Nat := 64 * 1024

/-- The opened `/proc/net/nf_conntrack` as the scanner reads it: the raw lines
(the text between newlines) in order, and the read error, if any, that ends
the stream after them. -/
structure ConntrackFile where
  lines : List String
  readErr : Option String := none

/-- The `dropCR` of `bufio.ScanLines`: one trailing `\r` of a raw line is not
part of `scanner.Text()`. -/
def dropCR (raw : String) : String :=
  if raw.data.getLast? = some '\r' then String.mk raw.data.dropLast else raw

/-- The loop `for scanner.Scan() { ... }` of `ReadConntrack` followed by
`return entries, scanner.Err()`.  `Scan` fails with `bufio.ErrTooLong` on a raw
line of `MaxScanTokenSize` bytes or more, which ends the loop with the records
appended so far; otherwise the body runs `parseLine` on the line, `continue`s on
an error and `append`s the entry otherwise.  When the lines are exhausted
`scanner.Err()` is the read error of the stream, if any. -/
def scanLoop (entries : List Entry) (readErr : Option String) :
    List String → List Entry × Option String
  | [] => (entries, readErr)
  | raw :: rest =>
    if raw.utf8ByteSize ≥ MaxScanTokenSize then
      (entries, some "bufio.Scanner: token too long")
    else
      match parseLine (dropCR raw) with
      | .error _ => scanLoop entries readErr rest
      | .ok entry => scanLoop (entries ++ [entry]) readErr rest

/-- `ReadConntrack()`, with the file system as an argument: `none` when
`/proc/net/nf_conntrack` cannot be opened (the function returns `nil` and the
wrapped error), otherwise the opened file.  The Go result `([]Entry, error)` is
the pair of the entries and the optional error. -/
def ReadConntrack (file : Option ConntrackFile) : List Entry × Option String :=
  match file with
  | none => ([], some "open /proc/net/nf_conntrack")
  | some f => scanLoop [] f.readErr f.lines

/-- One iteration of the loop of `CountStates`: the `switch e.State`, then
`c.Total++`. -/
def countStep (c : Counters) (e : Entry) : Counters :=
  let c :=
    if e.State = "ESTABLISHED" then { c with Established := c.Established + 1 }
    else if e.State = "SYN_SENT" then { c with SynSent := c.SynSent + 1 }
    else if e.State = "UNREPLIED" then { c with Unreplied := c.Unreplied + 1 }
    else { c with Other := c.Other + 1 }
  { c with Total := c.Total + 1 }

/-- `CountStates(entries)` aggregates entries by state. -/
def CountStates (entries : List Entry) : Counters :=
  entries.foldl countStep {}

/-- Specification side: the value of a token of the form `key=value`, the token
being split at its first `=`: `some value` when the text before the first `=`
is `key`, and `none` for every other token. -/
def keyValue (key : String) (token : String) : Option String :=
  if (key.data ++ ['=']).isPrefixOf token.data = true ∧ '=' ∉ key.data then
    some (String.mk (token.data.drop (key.data.length + 1)))
  else none

/-- Specification side: the value of the last token at index 6 or later that has
the form `key=value`, and the empty string when there is no such token. -/
def lastValue (key : String) (fields : List String) : String :=
  (((fields.drop 6).filterMap (keyValue key)).getLast?).getD ""

/-- The record of `parseLine` at the point where the timeout heuristic is
reached: after the key=value loop, the protocol statement and the position-5
state statement.  `parseLine line = .ok (inferState (beforeInfer line))`. -/
def beforeInfer (line : String) : Entry :=
  stateFromFields (Fields line) (protoFromFields (Fields line)
    (((Fields line).drop 6).foldl parseField {}))

/-- The line of `TestParseLine`. -/
def testLine : String :=
  "ipv4     2 tcp      6 431999 ESTABLISHED src=192.168.1.10 dst=93.184.216.34 sport=54321 dport=443 src=192.168.1.1 dst=192.168.1.10 sport=443 dport=54321 [ASSURED] mark=0 zone=0 use=2"

end conntrack

end NetworkAnalyzer

namespace NetworkAnalyzer

namespace tcp

/-! ## Handshake classifier -/

theorem finalize_SynSent (s : HandshakeStats) : (finalize s).SynSent = s.SynSent := by
  unfold finalize; split <;> rfl

theorem finalize_SynAckRcvd (s : HandshakeStats) :
    (finalize s).SynAckRcvd = s.SynAckRcvd := by
  unfold finalize; split <;> rfl

theorem finalize_RstRcvd (s : HandshakeStats) : (finalize s).RstRcvd = s.RstRcvd := by
  unfold finalize; split <;> rfl

theorem loopStep_SynSent (s : HandshakeStats) (raw : Raw) :
    (loopStep s raw).SynSent = s.SynSent + (if isSyn raw then 1 else 0) := by
  rcases raw with _ | ⟨_ | tcp⟩
  · rfl
  · rfl
  · rcases tcp with ⟨fin, syn, rst, psh, ack, urg, ece, cwr, ns⟩
    cases syn <;> cases ack <;> cases rst <;> simp [loopStep, process, isSyn]

theorem loopStep_SynAckRcvd (s : HandshakeStats) (raw : Raw) :
    (loopStep s raw).SynAckRcvd = s.SynAckRcvd + (if isSynAck raw then 1 else 0) := by
  rcases raw with _ | ⟨_ | tcp⟩
  · rfl
  · rfl
  · rcases tcp with ⟨fin, syn, rst, psh, ack, urg, ece, cwr, ns⟩
    cases syn <;> cases ack <;> cases rst <;> simp [loopStep, process, isSynAck]

theorem loopStep_RstRcvd (s : HandshakeStats) (raw : Raw) :
    (loopStep s raw).RstRcvd = s.RstRcvd + (if isPlain raw then 1 else 0) := by
  rcases raw with _ | ⟨_ | tcp⟩
  · rfl
  · rfl
  · rcases tcp with ⟨fin, syn, rst, psh, ack, urg, ece, cwr, ns⟩
    cases syn <;> cases ack <;> cases rst <;> simp [loopStep, process, isPlain]

theorem loopStep_SynAckRatio (s : HandshakeStats) (raw : Raw) :
    (loopStep s raw).SynAckRatio = s.SynAckRatio := by
  rcases raw with _ | ⟨_ | tcp⟩
  · rfl
  · rfl
  · simp only [loopStep, process]
    split_ifs <;> rfl

theorem foldl_SynSent (packets : List Raw) (s : HandshakeStats) :
    (packets.foldl loopStep s).SynSent = s.SynSent + packets.countP isSyn := by
  induction packets generalizing s with
  | nil => simp
  | cons raw rest ih =>
    rw [List.foldl_cons, ih, loopStep_SynSent, List.countP_cons]
    omega

theorem foldl_SynAckRcvd (packets : List Raw) (s : HandshakeStats) :
    (packets.foldl loopStep s).SynAckRcvd = s.SynAckRcvd + packets.countP isSynAck := by
  induction packets generalizing s with
  | nil => simp
  | cons raw rest ih =>
    rw [List.foldl_cons, ih, loopStep_SynAckRcvd, List.countP_cons]
    omega

theorem foldl_RstRcvd (packets : List Raw) (s : HandshakeStats) :
    (packets.foldl loopStep s).RstRcvd = s.RstRcvd + packets.countP isPlain := by
  induction packets generalizing s with
  | nil => simp
  | cons raw rest ih =>
    rw [List.foldl_cons, ih, loopStep_RstRcvd, List.countP_cons]
    omega

theorem foldl_SynAckRatio (packets : List Raw) (s : HandshakeStats) :
    (packets.foldl loopStep s).SynAckRatio = s.SynAckRatio := by
  induction packets generalizing s with
  | nil => rfl
  | cons raw rest ih => rw [List.foldl_cons, ih, loopStep_SynAckRatio]

/-- C1 (evaluation of the code): on the sequence `[SYN], [SYN,ACK], [SYN], [RST]`
`AnalyzeHandshake` returns `RstRcvd = 0`, not 1: the `[RST]` item is not counted.
In general the returned `RstRcvd` is the number of TCP items whose SYN flag and
RST flag are both clear, because `case tcp.RST` of the tagged switch fires when
`tcp.SYN == tcp.RST`. -/
theorem AnalyzeHandshake_RstRcvd_counts_plain :
    (AnalyzeHandshake handshakeSample).RstRcvd = 0 ∧
    handshakeSample.countP isRst = 1 ∧
    ∀ packets : List Raw, (AnalyzeHandshake packets).RstRcvd = packets.countP isPlain := by
  refine ⟨by decide, by decide, fun packets => ?_⟩
  simp [AnalyzeHandshake, foldl_RstRcvd, finalize_RstRcvd]

/-- C2 (counterexample): a SYN+RST packet is counted: on the zero accumulator
`process` moves `SynSent` from 0 to 1, so the three counters are not all
unchanged. -/
theorem process_SynRst_counted :
    (process {} ⟨some { SYN := true, RST := true }⟩).SynSent = 1 ∧
    ¬ ((process {} ⟨some { SYN := true, RST := true }⟩).SynSent = ({} : HandshakeStats).SynSent ∧
       (process {} ⟨some { SYN := true, RST := true }⟩).SynAckRcvd = ({} : HandshakeStats).SynAckRcvd ∧
       (process {} ⟨some { SYN := true, RST := true }⟩).RstRcvd = ({} : HandshakeStats).RstRcvd) := by
  decide

/-- C2 (amended): for every accumulator and every TCP packet, `process` adds one
to `SynSent` exactly when SYN is set and ACK is clear, adds one to `SynAckRcvd`
exactly when SYN and ACK are both set, and otherwise leaves these two counters
unchanged (so a packet with SYN clear, such as ACK-only or FIN-only, changes
neither); a packet with SYN set is counted whatever its RST flag is, and leaves
`RstRcvd` unchanged. -/
theorem process_frame (s : HandshakeStats) (tcp : TCP) :
    (process s ⟨some tcp⟩).SynSent =
      s.SynSent + (if tcp.SYN = true ∧ tcp.ACK = false then 1 else 0) ∧
    (process s ⟨some tcp⟩).SynAckRcvd =
      s.SynAckRcvd + (if tcp.SYN = true ∧ tcp.ACK = true then 1 else 0) ∧
    (process s ⟨some { tcp with SYN := true }⟩).RstRcvd = s.RstRcvd := by
  rcases tcp with ⟨fin, syn, rst, psh, ack, urg, ece, cwr, ns⟩
  cases syn <;> cases ack <;> cases rst <;> simp [process]

/-- C3: for every packet sequence, the `SynSent` returned by `AnalyzeHandshake`
is the number of TCP items with SYN set and ACK clear and the returned
`SynAckRcvd` is the number of TCP items with SYN and ACK set; items without a TCP
layer count for neither.  On `[SYN], [SYN,ACK], [SYN], [RST]` they are 2 and 1. -/
theorem AnalyzeHandshake_SynSent_SynAckRcvd :
    (∀ packets : List Raw,
      (AnalyzeHandshake packets).SynSent = packets.countP isSyn ∧
      (AnalyzeHandshake packets).SynAckRcvd = packets.countP isSynAck) ∧
    (∀ s : HandshakeStats, loopStep s .other = s ∧ loopStep s (.packet ⟨none⟩) = s) ∧
    (AnalyzeHandshake handshakeSample).SynSent = 2 ∧
    (AnalyzeHandshake handshakeSample).SynAckRcvd = 1 := by
  refine ⟨fun packets => ?_, fun s => ⟨rfl, rfl⟩, by decide, by decide⟩
  simp [AnalyzeHandshake, foldl_SynSent, foldl_SynAckRcvd, finalize_SynSent,
    finalize_SynAckRcvd]

/-- C4: for every packet sequence the returned `SynAckRatio` is 0 when the
returned `SynSent` is 0 and otherwise `100 * SynAckRcvd / SynSent` over the
rationals; when `SynSent` is 0 the ratio statement is not executed (the result
is the loop accumulator itself), otherwise its divisor is non-zero; the ratio is
never negative. -/
theorem AnalyzeHandshake_SynAckRatio (packets : List Raw) :
    (AnalyzeHandshake packets).SynAckRatio =
      (if (AnalyzeHandshake packets).SynSent = 0 then 0
       else 100 * ((AnalyzeHandshake packets).SynAckRcvd : ℚ) /
              ((AnalyzeHandshake packets).SynSent : ℚ)) ∧
    (if (packets.foldl loopStep {}).SynSent = 0
       then AnalyzeHandshake packets = packets.foldl loopStep {}
       else ((packets.foldl loopStep {}).SynSent : ℚ) ≠ 0) ∧
    0 ≤ (AnalyzeHandshake packets).SynAckRatio := by
  have hr : (packets.foldl loopStep {}).SynAckRatio = 0 := foldl_SynAckRatio packets {}
  unfold AnalyzeHandshake
  generalize packets.foldl loopStep {} = st at hr
  rcases st with ⟨a, b, c, r⟩
  simp only at hr
  subst hr
  unfold finalize
  by_cases h : a = 0
  · subst h; simp
  · have ha : 0 < a := Nat.pos_of_ne_zero h
    have hq : (a : ℚ) ≠ 0 := by exact_mod_cast h
    simp only [gt_iff_lt, ha, if_true, h, if_false]
    refine ⟨by ring, hq, ?_⟩
    positivity

end tcp

namespace conntrack

/-! ## Conntrack parser: library functions -/

theorem cutAt_some {sep : Char} {l k v : List Char} (h : cutAt sep l = some (k, v)) :
    l = k ++ sep :: v ∧ sep ∉ k := by
  induction l generalizing k v with
  | nil => simp [cutAt] at h
  | cons c cs ih =>
    unfold cutAt at h
    by_cases hc : c = sep
    · simp only [hc, if_true, Option.some.injEq, Prod.mk.injEq] at h
      obtain ⟨rfl, rfl⟩ := h
      simp [hc]
    · simp only [hc, if_false] at h
      cases hcs : cutAt sep cs with
      | none => simp [hcs] at h
      | some p =>
        obtain ⟨k0, v0⟩ := p
        simp only [hcs, Option.some.injEq, Prod.mk.injEq] at h
        obtain ⟨rfl, rfl⟩ := h
        obtain ⟨h1, h2⟩ := ih hcs
        refine ⟨by simp [h1], ?_⟩
        simp only [List.mem_cons, not_or]
        exact ⟨fun h => hc h.symm, h2⟩

theorem cutAt_none {sep : Char} {l : List Char} (h : cutAt sep l = none) : sep ∉ l := by
  induction l with
  | nil => simp
  | cons c cs ih =>
    unfold cutAt at h
    by_cases hc : c = sep
    · simp [hc] at h
    · simp only [hc, if_false] at h
      cases hcs : cutAt sep cs with
      | none =>
        simp only [List.mem_cons, not_or]
        exact ⟨fun h => hc h.symm, ih hcs⟩
      | some p => obtain ⟨k0, v0⟩ := p; simp [hcs] at h

theorem cutAt_append {sep : Char} (k v : List Char) (hk : sep ∉ k) :
    cutAt sep (k ++ sep :: v) = some (k, v) := by
  induction k with
  | nil => simp [cutAt]
  | cons c cs ih =>
    simp only [List.mem_cons, not_or] at hk
    have hc : ¬ c = sep := fun h => hk.1 h.symm
    simp [cutAt, hc, ih hk.2]

/-- The specification reading of `key=value` agrees with the cut at the first
`=`: `keyValue key token` is the text after the first `=` when the text before
it is `key`. -/
theorem keyValue_eq_cut (key token : String) (hk : '=' ∉ key.data) :
    keyValue key token =
      match cutAt '=' token.data with
      | some (k, v) => if k = key.data then some (String.mk v) else none
      | none => none := by
  unfold keyValue
  cases hc : cutAt '=' token.data with
  | none =>
    have hno := cutAt_none hc
    have : ¬ ((key.data ++ ['=']).isPrefixOf token.data = true) := by
      rw [ List.isPrefixOf_iff_prefix]
      rintro ⟨r, hr⟩
      apply hno
      rw [← hr]
      simp
    simp [this]
  | some p =>
    obtain ⟨k, v⟩ := p
    obtain ⟨h1, h2⟩ := cutAt_some hc
    by_cases hkk : k = key.data
    · subst hkk
      have hp : (key.data ++ ['=']).isPrefixOf token.data = true := by
        rw [ List.isPrefixOf_iff_prefix]
        exact ⟨v, by simp [h1]⟩
      have hd : token.data.drop (key.data.length + 1) = v := by
        rw [h1]
        have : key.data ++ '=' :: v = (key.data ++ ['=']) ++ v := by simp
        rw [this, List.drop_left' (by simp)]
      simp only [hp, hk, not_false_eq_true, and_self, if_true, hd]
    · have hp : ¬ ((key.data ++ ['=']).isPrefixOf token.data = true) := by
        rw [ List.isPrefixOf_iff_prefix]
        rintro ⟨r, hr⟩
        have h3 : cutAt '=' token.data = some (key.data, r) := by
          rw [← hr]
          have : key.data ++ ['='] ++ r = key.data ++ '=' :: r := by simp
          rw [this]
          exact cutAt_append _ _ hk
        rw [hc] at h3
        simp only [Option.some.injEq, Prod.mk.injEq] at h3
        exact hkk h3.1
      simp [hp, hkk]

/-- A token has a `keyValue` exactly when it is `key`, then `=`, then the
value, with no `=` inside the key. -/
theorem keyValue_eq_some_iff (key token value : String) :
    keyValue key token = some value ↔
      token.data = key.data ++ '=' :: value.data ∧ '=' ∉ key.data := by
  by_cases hk : '=' ∈ key.data
  · simp [keyValue, hk]
  · rw [keyValue_eq_cut key token hk]
    constructor
    · intro h
      cases hc : cutAt '=' token.data with
      | none => simp [hc] at h
      | some p =>
        obtain ⟨k, v⟩ := p
        simp only [hc] at h
        obtain ⟨h1, _⟩ := cutAt_some hc
        by_cases hkk : k = key.data
        · simp only [hkk, if_true, Option.some.injEq] at h
          subst hkk
          refine ⟨?_, hk⟩
          rw [h1, ← h]
        · simp [hkk] at h
    · rintro ⟨h, _⟩
      rw [h, cutAt_append _ _ hk]
      simp

/-! ## Conntrack parser: the key=value loop -/

theorem parseField_SrcIP (e : Entry) (t : String) :
    (parseField e t).SrcIP = (keyValue "src" t).getD e.SrcIP := by
  rw [keyValue_eq_cut "src" t (by decide)]
  unfold parseField SplitN
  cases hc : cutAt '=' t.data with
  | none => simp
  | some p =>
    obtain ⟨k, v⟩ := p
    simp only
    by_cases hkk : k = "src".data
    · subst hkk; simp
    · have hne : String.mk k ≠ "src" := fun h => hkk (congrArg String.data h)
      simp only [hkk, hne, if_false, Option.getD_none]
      split_ifs <;> (try split) <;> rfl

theorem parseField_DstIP (e : Entry) (t : String) :
    (parseField e t).DstIP = (keyValue "dst" t).getD e.DstIP := by
  rw [keyValue_eq_cut "dst" t (by decide)]
  unfold parseField SplitN
  cases hc : cutAt '=' t.data with
  | none => simp
  | some p =>
    obtain ⟨k, v⟩ := p
    simp only
    by_cases hkk : k = "dst".data
    · subst hkk; simp
    · have hne : String.mk k ≠ "dst" := fun h => hkk (congrArg String.data h)
      simp only [hkk, hne, if_false, Option.getD_none]
      split_ifs <;> (try split) <;> rfl

theorem parseField_SrcPort (e : Entry) (t : String) :
    (parseField e t).SrcPort = (keyValue "sport" t).getD e.SrcPort := by
  rw [keyValue_eq_cut "sport" t (by decide)]
  unfold parseField SplitN
  cases hc : cutAt '=' t.data with
  | none => simp
  | some p =>
    obtain ⟨k, v⟩ := p
    simp only
    by_cases hkk : k = "sport".data
    · subst hkk; simp
    · have hne : String.mk k ≠ "sport" := fun h => hkk (congrArg String.data h)
      simp only [hkk, hne, if_false, Option.getD_none]
      split_ifs <;> (try split) <;> rfl

theorem parseField_DstPort (e : Entry) (t : String) :
    (parseField e t).DstPort = (keyValue "dport" t).getD e.DstPort := by
  rw [keyValue_eq_cut "dport" t (by decide)]
  unfold parseField SplitN
  cases hc : cutAt '=' t.data with
  | none => simp
  | some p =>
    obtain ⟨k, v⟩ := p
    simp only
    by_cases hkk : k = "dport".data
    · subst hkk; simp
    · have hne : String.mk k ≠ "dport" := fun h => hkk (congrArg String.data h)
      simp only [hkk, hne, if_false, Option.getD_none]
      split_ifs <;> (try split) <;> rfl

theorem getLast?_cons_getD {γ : Type} (c d : γ) (l : List γ) :
    ((c :: l).getLast?).getD d = (l.getLast?).getD c := by
  cases l with
  | nil => rfl
  | cons x xs => rw [List.getLast?_cons_cons]; rfl

/-- A left fold whose step overwrites a component with `g b` whenever `g b` is
defined ends with the last defined `g b`, or with the initial component. -/
theorem foldl_last_write {α β γ : Type} (f : α → β → α) (proj : α → γ) (g : β → Option γ)
    (hstep : ∀ a b, proj (f a b) = (g b).getD (proj a)) (l : List β) (a : α) :
    proj (l.foldl f a) = ((l.filterMap g).getLast?).getD (proj a) := by
  induction l generalizing a with
  | nil => rfl
  | cons b rest ih =>
    rw [List.foldl_cons, ih, hstep]
    cases hg : g b with
    | none => simp [List.filterMap_cons, hg]
    | some c => simp [List.filterMap_cons, hg, getLast?_cons_getD]

theorem protoFromFields_other (fields : List String) (e : Entry) :
    (protoFromFields fields e).State = e.State ∧
    (protoFromFields fields e).SrcIP = e.SrcIP ∧ (protoFromFields fields e).DstIP = e.DstIP ∧
    (protoFromFields fields e).SrcPort = e.SrcPort ∧
    (protoFromFields fields e).DstPort = e.DstPort ∧
    (protoFromFields fields e).Timeout = e.Timeout := by
  unfold protoFromFields
  split <;> simp

theorem stateFromFields_other (fields : List String) (e : Entry) :
    (stateFromFields fields e).Proto = e.Proto ∧
    (stateFromFields fields e).SrcIP = e.SrcIP ∧ (stateFromFields fields e).DstIP = e.DstIP ∧
    (stateFromFields fields e).SrcPort = e.SrcPort ∧
    (stateFromFields fields e).DstPort = e.DstPort ∧
    (stateFromFields fields e).Timeout = e.Timeout := by
  unfold stateFromFields
  split <;> simp

theorem inferState_other (e : Entry) :
    (inferState e).Proto = e.Proto ∧
    (inferState e).SrcIP = e.SrcIP ∧ (inferState e).DstIP = e.DstIP ∧
    (inferState e).SrcPort = e.SrcPort ∧ (inferState e).DstPort = e.DstPort ∧
    (inferState e).Timeout = e.Timeout := by
  unfold inferState
  split_ifs <;> simp

/-- C5: for every line, `parseLine` returns a record (no error) whose `SrcIP`,
`DstIP`, `SrcPort` and `DstPort` are the values of the last token at index 6 or
later of the form `src=value`, `dst=value`, `sport=value`, `dport=value`
respectively (token split at its first `=`), and the empty string when the line
has no such token; an earlier occurrence never survives a later one. -/
theorem parseLine_last_occurrence (line : String) :
    ∃ e : Entry, parseLine line = .ok e ∧
      e.SrcIP = lastValue "src" (Fields line) ∧
      e.DstIP = lastValue "dst" (Fields line) ∧
      e.SrcPort = lastValue "sport" (Fields line) ∧
      e.DstPort = lastValue "dport" (Fields line) := by
  refine ⟨_, rfl, ?_, ?_, ?_, ?_⟩
  · rw [(inferState_other _).2.1, (stateFromFields_other _ _).2.1,
      (protoFromFields_other _ _).2.1]
    exact foldl_last_write parseField Entry.SrcIP (keyValue "src") parseField_SrcIP _ _
  · rw [(inferState_other _).2.2.1, (stateFromFields_other _ _).2.2.1,
      (protoFromFields_other _ _).2.2.1]
    exact foldl_last_write parseField Entry.DstIP (keyValue "dst") parseField_DstIP _ _
  · rw [(inferState_other _).2.2.2.1, (stateFromFields_other _ _).2.2.2.1,
      (protoFromFields_other _ _).2.2.2.1]
    exact foldl_last_write parseField Entry.SrcPort (keyValue "sport") parseField_SrcPort _ _
  · rw [(inferState_other _).2.2.2.2.1, (stateFromFields_other _ _).2.2.2.2.1,
      (protoFromFields_other _ _).2.2.2.2.1]
    exact foldl_last_write parseField Entry.DstPort (keyValue "dport") parseField_DstPort _ _

/-- C6 (evaluation of the code): on the line of `TestParseLine`, `parseLine`
returns the addresses of the reply (second) tuple, `SrcIP = "192.168.1.1"` and
`DstIP = "192.168.1.10"`, where the test asserts those of the original tuple,
`"192.168.1.10"` and `"93.184.216.34"`. -/
theorem parseLine_testLine_reply_tuple :
    parseLine testLine = .ok
      { Proto := "tcp", State := "ESTABLISHED", SrcIP := "192.168.1.1",
        DstIP := "192.168.1.10", SrcPort := "443", DstPort := "54321", Timeout := 0 } ∧
    keyValue "src" "src=192.168.1.10" = some "192.168.1.10" ∧
    keyValue "dst" "dst=93.184.216.34" = some "93.184.216.34" :=
  ⟨rfl, by decide, by decide⟩

/-! ## Conntrack parser: short lines and the scan loop -/

theorem fieldsAux_ne_nil (cs cur : List Char) : ∀ t ∈ fieldsAux cs cur, t ≠ [] := by
  induction cs generalizing cur with
  | nil =>
    intro t ht
    unfold fieldsAux at ht
    cases cur with
    | nil => simp at ht
    | cons c r =>
      simp only [List.isEmpty_cons, Bool.false_eq_true, if_false, List.mem_singleton] at ht
      subst ht
      simp
  | cons c cs ih =>
    intro t ht
    unfold fieldsAux at ht
    by_cases hsp : isSpace c = true
    · cases cur with
      | nil =>
        simp only [hsp, if_true, List.isEmpty_nil] at ht
        exact ih [] t ht
      | cons d r =>
        simp only [hsp, if_true, List.isEmpty_cons, Bool.false_eq_true, if_false,
          List.mem_cons] at ht
        rcases ht with ht | ht
        · subst ht; simp
        · exact ih [] t ht
    · simp only [hsp, if_false] at ht
      exact ih (c :: cur) t ht

/-- No token returned by `Fields` is the empty string. -/
theorem Fields_ne_empty (s : String) : ∀ t ∈ Fields s, t ≠ "" := by
  intro t ht
  unfold Fields at ht
  rw [List.mem_map] at ht
  obtain ⟨l, hl, rfl⟩ := ht
  intro h
  exact fieldsAux_ne_nil _ _ l hl (congrArg String.data h)

/-- C7 (counterexample): the line `ipv4 2 tcp` has 3 tokens, fewer than 6, and
`parseLine` returns a record whose `Proto` is `"tcp"`, not the empty string. -/
theorem parseLine_three_tokens_Proto :
    (Fields "ipv4 2 tcp").length = 3 ∧
    parseLine "ipv4 2 tcp" = .ok { Proto := "tcp" } ∧
    ({ Proto := "tcp" } : Entry).Proto ≠ "" :=
  ⟨by decide, rfl, by decide⟩

/-- C7 (amended): for every line with fewer than 6 tokens, `parseLine` returns no
error and a record whose `Proto` is the token at index 2 when the line has at
least 3 tokens and the empty string otherwise (so `Proto` is empty exactly for
fewer than 3 tokens), and whose `State` is the empty string or `"UNREPLIED"`. -/
theorem parseLine_short_line (line : String) (h : (Fields line).length < 6) :
    ∃ e : Entry, parseLine line = .ok e ∧
      e.Proto = ((Fields line)[2]?).getD "" ∧
      (e.Proto = "" ↔ (Fields line).length < 3) ∧
      (e.State = "" ∨ e.State = "UNREPLIED") := by
  have hdrop : (Fields line).drop 6 = [] := List.drop_eq_nil_of_le (by omega)
  have hst : ∀ e : Entry, stateFromFields (Fields line) e = e := by
    intro e
    unfold stateFromFields
    rw [dif_neg]
    omega
  have hs0 : (protoFromFields (Fields line) {}).State = "" :=
    (protoFromFields_other (Fields line) {}).1
  have ht0 : (protoFromFields (Fields line) {}).Timeout = 0 :=
    (protoFromFields_other (Fields line) {}).2.2.2.2.2
  have hinf : inferState (protoFromFields (Fields line) {}) = protoFromFields (Fields line) {} := by
    unfold inferState
    simp [hs0, ht0]
  have hp : (protoFromFields (Fields line) {}).Proto = ((Fields line)[2]?).getD "" := by
    unfold protoFromFields
    by_cases h2 : (Fields line).length > 2
    · simp [h2, List.getElem?_eq_getElem]
    · simp only [h2, dite_false]
      rw [List.getElem?_eq_none (by omega)]
      rfl
  refine ⟨protoFromFields (Fields line) {}, ?_, hp, ?_, Or.inl hs0⟩
  · unfold parseLine
    simp only [hdrop, List.foldl_nil, hst, hinf]
  · rw [hp]
    by_cases h2 : (Fields line).length > 2
    · have hne : (Fields line)[2] ≠ "" :=
        Fields_ne_empty line _ (List.getElem_mem _)
      simp only [List.getElem?_eq_getElem h2, Option.getD_some]
      constructor
      · intro h0; exact absurd h0 hne
      · intro h3; omega
    · rw [List.getElem?_eq_none (by omega)]
      simp only [Option.getD_none, true_iff]
      omega

/-- Witness of C7 (amended), at the line `ipv4 2 tcp`. -/
theorem parseLine_short_line_witness :
    (Fields "ipv4 2 tcp").length < 6 ∧
    ∃ e : Entry, parseLine "ipv4 2 tcp" = .ok e ∧
      e.Proto = ((Fields "ipv4 2 tcp")[2]?).getD "" ∧
      (e.Proto = "" ↔ (Fields "ipv4 2 tcp").length < 3) ∧
      (e.State = "" ∨ e.State = "UNREPLIED") :=
  ⟨by decide, parseLine_short_line "ipv4 2 tcp" (by decide)⟩

theorem parseLine_ok (line : String) : ∃ e : Entry, parseLine line = .ok e :=
  ⟨_, rfl⟩

/-- The entries returned by the scan loop are the records of `parseLine` for
every line before the first one that is too long for the scanner: the
`continue` branch never runs. -/
theorem scanLoop_map (acc : List Entry) (readErr : Option String) (lines : List String) :
    (scanLoop acc readErr lines).1.map (Except.ok : Entry → Except String Entry) =
      acc.map Except.ok ++
        (lines.takeWhile (fun raw => decide (raw.utf8ByteSize < MaxScanTokenSize))).map
          (fun raw => parseLine (dropCR raw)) := by
  induction lines generalizing acc with
  | nil => simp [scanLoop]
  | cons raw rest ih =>
    obtain ⟨e, he⟩ := parseLine_ok (dropCR raw)
    by_cases hlen : raw.utf8ByteSize ≥ MaxScanTokenSize
    · have hlt : ¬ raw.utf8ByteSize < MaxScanTokenSize := by omega
      simp [scanLoop, hlen, hlt, List.takeWhile_cons]
    · have hlt : raw.utf8ByteSize < MaxScanTokenSize := by omega
      simp [scanLoop, hlen, hlt, List.takeWhile_cons, he, ih]

/-- C8 (evaluation of the code): on the table whose only line is `garbage`, a
line that cannot be parsed into a protocol/state pair, `ReadConntrack` returns
no error and one record, with empty `Proto` and empty `State`: the line is not
dropped.  `parseLine` returns no error on any line, so the
`continue // skip malformed lines` branch of the loop never runs. -/
theorem ReadConntrack_keeps_unparsable_line :
    ReadConntrack (some { lines := ["garbage"] }) = ([{}], none) ∧
    ({} : Entry).Proto = "" ∧ ({} : Entry).State = "" ∧
    (∀ line : String, ∃ e : Entry, parseLine line = .ok e) :=
  ⟨by decide, rfl, rfl, parseLine_ok⟩

/-! ## Aggregator -/

theorem countStep_fields (c : Counters) (e : Entry) :
    (countStep c e).Established = c.Established + (if e.State = "ESTABLISHED" then 1 else 0) ∧
    (countStep c e).SynSent = c.SynSent + (if e.State = "SYN_SENT" then 1 else 0) ∧
    (countStep c e).Unreplied = c.Unreplied + (if e.State = "UNREPLIED" then 1 else 0) ∧
    (countStep c e).Other = c.Other +
      (if e.State ≠ "ESTABLISHED" ∧ e.State ≠ "SYN_SENT" ∧ e.State ≠ "UNREPLIED" then 1 else 0) ∧
    (countStep c e).Total = c.Total + 1 := by
  unfold countStep
  by_cases h1 : e.State = "ESTABLISHED"
  · have h2 : ¬ ("ESTABLISHED" = "SYN_SENT") := by decide
    have h3 : ¬ ("ESTABLISHED" = "UNREPLIED") := by decide
    simp [h1, h2, h3]
  · by_cases h2 : e.State = "SYN_SENT"
    · have h3 : ¬ ("SYN_SENT" = "UNREPLIED") := by decide
      simp [h1, h2, h3]
    · by_cases h3 : e.State = "UNREPLIED"
      · simp [h1, h2, h3]
      · simp [h1, h2, h3]

/-- The loop of `CountStates` from any accumulator: each bucket grows by the
number of entries it matches, `Total` by the number of entries. -/
theorem foldl_countStep (entries : List Entry) (c : Counters) :
    (entries.foldl countStep c).Established =
      c.Established + entries.countP (fun e => e.State == "ESTABLISHED") ∧
    (entries.foldl countStep c).SynSent =
      c.SynSent + entries.countP (fun e => e.State == "SYN_SENT") ∧
    (entries.foldl countStep c).Unreplied =
      c.Unreplied + entries.countP (fun e => e.State == "UNREPLIED") ∧
    (entries.foldl countStep c).Other =
      c.Other + entries.countP (fun e =>
        e.State != "ESTABLISHED" && e.State != "SYN_SENT" && e.State != "UNREPLIED") ∧
    (entries.foldl countStep c).Total = c.Total + entries.length := by
  induction entries generalizing c with
  | nil => simp
  | cons e rest ih =>
    obtain ⟨i1, i2, i3, i4, i5⟩ := ih (countStep c e)
    obtain ⟨s1, s2, s3, s4, s5⟩ := countStep_fields c e
    rw [List.foldl_cons, i1, i2, i3, i4, i5, s1, s2, s3, s4, s5]
    simp only [List.countP_cons, List.length_cons, beq_iff_eq, bne_iff_ne, Bool.and_eq_true,
      and_assoc]
    refine ⟨by omega, by omega, by omega, by omega, by omega⟩

/-- C9: for every list of entries, `CountStates` returns `Established`, `SynSent`
and `Unreplied` equal to the number of entries whose `State` is exactly
`"ESTABLISHED"`, `"SYN_SENT"`, `"UNREPLIED"`, `Other` equal to the number of
entries whose `State` is none of the three, and `Total` equal to the length of
the list.  States `[ESTABLISHED, ESTABLISHED, SYN_SENT, UNREPLIED, OTHER]` give
total 5, established 2, synSent 1, unreplied 1, other 1; the match is
case-sensitive (`established` goes to `Other`). -/
theorem CountStates_counts :
    (∀ entries : List Entry,
      (CountStates entries).Established =
        entries.countP (fun e => e.State == "ESTABLISHED") ∧
      (CountStates entries).SynSent = entries.countP (fun e => e.State == "SYN_SENT") ∧
      (CountStates entries).Unreplied = entries.countP (fun e => e.State == "UNREPLIED") ∧
      (CountStates entries).Other = entries.countP (fun e =>
        e.State != "ESTABLISHED" && e.State != "SYN_SENT" && e.State != "UNREPLIED") ∧
      (CountStates entries).Total = entries.length) ∧
    CountStates [{ State := "ESTABLISHED" }, { State := "ESTABLISHED" }, { State := "SYN_SENT" },
        { State := "UNREPLIED" }, { State := "OTHER" }] =
      { Total := 5, Established := 2, SynSent := 1, Unreplied := 1, Other := 1 } ∧
    CountStates [{ State := "established" }] = { Total := 1, Other := 1 } := by
  refine ⟨fun entries => ?_, by decide, by decide⟩
  have h := foldl_countStep entries {}
  simpa [CountStates] using h

theorem CountStates_Total_eq_sum (entries : List Entry) :
    (CountStates entries).Total =
      (CountStates entries).Established + (CountStates entries).SynSent +
        (CountStates entries).Unreplied + (CountStates entries).Other := by
  have key : ∀ (l : List Entry) (c : Counters),
      (l.foldl countStep c).Total + (c.Established + c.SynSent + c.Unreplied + c.Other) =
        (l.foldl countStep c).Established + (l.foldl countStep c).SynSent +
          (l.foldl countStep c).Unreplied + (l.foldl countStep c).Other + c.Total := by
    intro l
    induction l with
    | nil => intro c; simp; omega
    | cons e rest ih =>
      intro c
      have h := ih (countStep c e)
      obtain ⟨s1, s2, s3, s4, s5⟩ := countStep_fields c e
      rw [List.foldl_cons]
      rw [s1, s2, s3, s4, s5] at h
      by_cases h1 : e.State = "ESTABLISHED"
      · have h2 : ¬ ("ESTABLISHED" = "SYN_SENT") := by decide
        have h3 : ¬ ("ESTABLISHED" = "UNREPLIED") := by decide
        simp [h1, h2, h3] at h
        omega
      · by_cases h2 : e.State = "SYN_SENT"
        · have h3 : ¬ ("SYN_SENT" = "UNREPLIED") := by decide
          simp [h1, h2, h3] at h
          omega
        · by_cases h3 : e.State = "UNREPLIED"
          · simp [h1, h2, h3] at h
            omega
          · simp [h1, h2, h3] at h
            omega
  have h := key entries {}
  simp only [Nat.add_zero] at h
  unfold CountStates
  omega

theorem CountStates_step_one_bucket (c : Counters) (e : Entry) :
    ((countStep c e).Established = c.Established + 1 ∧ (countStep c e).SynSent = c.SynSent ∧
      (countStep c e).Unreplied = c.Unreplied ∧ (countStep c e).Other = c.Other) ∨
    ((countStep c e).Established = c.Established ∧ (countStep c e).SynSent = c.SynSent + 1 ∧
      (countStep c e).Unreplied = c.Unreplied ∧ (countStep c e).Other = c.Other) ∨
    ((countStep c e).Established = c.Established ∧ (countStep c e).SynSent = c.SynSent ∧
      (countStep c e).Unreplied = c.Unreplied + 1 ∧ (countStep c e).Other = c.Other) ∨
    ((countStep c e).Established = c.Established ∧ (countStep c e).SynSent = c.SynSent ∧
      (countStep c e).Unreplied = c.Unreplied ∧ (countStep c e).Other = c.Other + 1) := by
  obtain ⟨s1, s2, s3, s4, _⟩ := countStep_fields c e
  rw [s1, s2, s3, s4]
  by_cases h1 : e.State = "ESTABLISHED"
  · have h2 : ¬ ("ESTABLISHED" = "SYN_SENT") := by decide
    have h3 : ¬ ("ESTABLISHED" = "UNREPLIED") := by decide
    simp [h1, h2, h3]
  · by_cases h2 : e.State = "SYN_SENT"
    · have h3 : ¬ ("SYN_SENT" = "UNREPLIED") := by decide
      simp [h1, h2, h3]
    · by_cases h3 : e.State = "UNREPLIED"
      · simp [h1, h2, h3]
      · simp [h1, h2, h3]

/-- C10: for every list of entries the counters returned by `CountStates` satisfy
`Total = Established + SynSent + Unreplied + Other`, and the four buckets add up
to the number of entries.  Each entry contributes to exactly one bucket: the
counters of the empty list are all zero, the counters of `l ++ [e]` are those of
`l` after one loop iteration on `e`, and that iteration adds one to exactly one
of the four buckets and leaves the other three unchanged. -/
theorem CountStates_total (entries : List Entry) :
    (CountStates entries).Total =
      (CountStates entries).Established + (CountStates entries).SynSent +
        (CountStates entries).Unreplied + (CountStates entries).Other ∧
    (CountStates entries).Established + (CountStates entries).SynSent +
        (CountStates entries).Unreplied + (CountStates entries).Other = entries.length ∧
    CountStates [] = { Total := 0, Established := 0, SynSent := 0, Unreplied := 0, Other := 0 } ∧
    (∀ (l : List Entry) (e : Entry), CountStates (l ++ [e]) = countStep (CountStates l) e) ∧
    (∀ (l : List Entry) (e : Entry),
      ((CountStates (l ++ [e])).Established = (CountStates l).Established + 1 ∧
        (CountStates (l ++ [e])).SynSent = (CountStates l).SynSent ∧
        (CountStates (l ++ [e])).Unreplied = (CountStates l).Unreplied ∧
        (CountStates (l ++ [e])).Other = (CountStates l).Other) ∨
      ((CountStates (l ++ [e])).Established = (CountStates l).Established ∧
        (CountStates (l ++ [e])).SynSent = (CountStates l).SynSent + 1 ∧
        (CountStates (l ++ [e])).Unreplied = (CountStates l).Unreplied ∧
        (CountStates (l ++ [e])).Other = (CountStates l).Other) ∨
      ((CountStates (l ++ [e])).Established = (CountStates l).Established ∧
        (CountStates (l ++ [e])).SynSent = (CountStates l).SynSent ∧
        (CountStates (l ++ [e])).Unreplied = (CountStates l).Unreplied + 1 ∧
        (CountStates (l ++ [e])).Other = (CountStates l).Other) ∨
      ((CountStates (l ++ [e])).Established = (CountStates l).Established ∧
        (CountStates (l ++ [e])).SynSent = (CountStates l).SynSent ∧
        (CountStates (l ++ [e])).Unreplied = (CountStates l).Unreplied ∧
        (CountStates (l ++ [e])).Other = (CountStates l).Other + 1)) ∧
    ∀ (c : Counters) (e : Entry),
      ((countStep c e).Established = c.Established + 1 ∧ (countStep c e).SynSent = c.SynSent ∧
        (countStep c e).Unreplied = c.Unreplied ∧ (countStep c e).Other = c.Other) ∨
      ((countStep c e).Established = c.Established ∧ (countStep c e).SynSent = c.SynSent + 1 ∧
        (countStep c e).Unreplied = c.Unreplied ∧ (countStep c e).Other = c.Other) ∨
      ((countStep c e).Established = c.Established ∧ (countStep c e).SynSent = c.SynSent ∧
        (countStep c e).Unreplied = c.Unreplied + 1 ∧ (countStep c e).Other = c.Other) ∨
      ((countStep c e).Established = c.Established ∧ (countStep c e).SynSent = c.SynSent ∧
        (countStep c e).Unreplied = c.Unreplied ∧ (countStep c e).Other = c.Other + 1) := by
  have hsnoc : ∀ (l : List Entry) (e : Entry),
      CountStates (l ++ [e]) = countStep (CountStates l) e := by
    intro l e
    simp [CountStates, List.foldl_append]
  have hstep := CountStates_step_one_bucket
  have htotal := CountStates_Total_eq_sum entries
  have hlen : (CountStates entries).Total = entries.length := by
    have h := (foldl_countStep entries {}).2.2.2.2
    simpa [CountStates] using h
  refine ⟨htotal, by omega, rfl, hsnoc, ?_, hstep⟩
  intro l e
  rw [hsnoc]
  exact hstep (CountStates l) e

/-! ## Conntrack parser: state resolution -/

theorem parseField_State (e : Entry) (t : String) :
    (parseField e t).State = (keyValue "tcp_state" t).getD e.State := by
  rw [keyValue_eq_cut "tcp_state" t (by decide)]
  unfold parseField SplitN
  cases hc : cutAt '=' t.data with
  | none => simp
  | some p =>
    obtain ⟨k, v⟩ := p
    simp only
    by_cases hkk : k = "tcp_state".data
    · subst hkk; simp
    · have hne : String.mk k ≠ "tcp_state" := fun h => hkk (congrArg String.data h)
      simp only [hkk, hne, if_false, Option.getD_none]
      split_ifs <;> (try split) <;> rfl

/-- State after the key=value loop: the value of the last `tcp_state=value` token
at index 6 or later, and empty when there is none. -/
theorem loop_State (fields : List String) :
    ((fields.drop 6).foldl parseField {}).State = lastValue "tcp_state" fields :=
  foldl_last_write parseField Entry.State (keyValue "tcp_state") parseField_State _ _

theorem stateFromFields_State (fields : List String) (e : Entry) :
    (stateFromFields fields e).State =
      if e.State = "" then (fields[5]?).getD "" else e.State := by
  unfold stateFromFields
  by_cases h0 : e.State = ""
  · by_cases h5 : fields.length > 5
    · simp [h0, h5, List.getElem?_eq_getElem]
    · rw [dif_neg (fun h => h5 h.2), List.getElem?_eq_none (by omega)]
      simp [h0]
  · rw [dif_neg (fun h => h0 h.1)]
    simp [h0]

/-- State at the point where the timeout heuristic is reached. -/
theorem beforeInfer_State (line : String) :
    (beforeInfer line).State =
      if lastValue "tcp_state" (Fields line) = "" then ((Fields line)[5]?).getD ""
      else lastValue "tcp_state" (Fields line) := by
  unfold beforeInfer
  rw [stateFromFields_State, (protoFromFields_other _ _).1, loop_State]

theorem beforeInfer_other (line : String) :
    (beforeInfer line).SrcIP = (((Fields line).drop 6).foldl parseField {}).SrcIP ∧
    (beforeInfer line).DstIP = (((Fields line).drop 6).foldl parseField {}).DstIP ∧
    (beforeInfer line).SrcPort = (((Fields line).drop 6).foldl parseField {}).SrcPort ∧
    (beforeInfer line).DstPort = (((Fields line).drop 6).foldl parseField {}).DstPort ∧
    (beforeInfer line).Timeout = (((Fields line).drop 6).foldl parseField {}).Timeout := by
  unfold beforeInfer
  obtain ⟨_, a1, a2, a3, a4, a5⟩ := stateFromFields_other (Fields line)
    (protoFromFields (Fields line) (((Fields line).drop 6).foldl parseField {}))
  obtain ⟨_, b1, b2, b3, b4, b5⟩ := protoFromFields_other (Fields line)
    (((Fields line).drop 6).foldl parseField {})
  exact ⟨a1.trans b1, a2.trans b2, a3.trans b3, a4.trans b4, a5.trans b5⟩

/-- A line whose state is still empty when the heuristic is reached has at most
5 tokens. -/
theorem beforeInfer_State_empty (line : String) (h : (beforeInfer line).State = "") :
    (Fields line).length < 6 := by
  rw [beforeInfer_State] at h
  by_contra hlen
  have h5 : 5 < (Fields line).length := by omega
  have hne : (Fields line)[5] ≠ "" := Fields_ne_empty line _ (List.getElem_mem _)
  by_cases hl : lastValue "tcp_state" (Fields line) = ""
  · rw [if_pos hl, List.getElem?_eq_getElem h5] at h
    exact hne h
  · rw [if_neg hl] at h
    exact hl h

theorem inferState_of_State_ne (e : Entry) (h : e.State ≠ "") : inferState e = e := by
  unfold inferState
  rw [if_neg h]

/-- A line whose state is still empty when the heuristic is reached was not
scanned at all: it has no token at index 6 or later, its timeout is 0 and its
address and port fields are empty. -/
theorem beforeInfer_State_empty_fields (line : String) (h : (beforeInfer line).State = "") :
    (Fields line).drop 6 = [] ∧ (beforeInfer line).Timeout = 0 ∧
    (beforeInfer line).SrcIP = "" ∧ (beforeInfer line).DstIP = "" ∧
    (beforeInfer line).SrcPort = "" ∧ (beforeInfer line).DstPort = "" := by
  have hlen := beforeInfer_State_empty line h
  have hdrop : (Fields line).drop 6 = [] := List.drop_eq_nil_of_le (by omega)
  obtain ⟨a1, a2, a3, a4, a5⟩ := beforeInfer_other line
  rw [hdrop] at a1 a2 a3 a4 a5
  exact ⟨hdrop, a5, a1, a2, a3, a4⟩

/-- The timeout heuristic never changes the record `parseLine` has built. -/
theorem inferState_beforeInfer (line : String) :
    inferState (beforeInfer line) = beforeInfer line := by
  by_cases h : (beforeInfer line).State = ""
  · have ht := (beforeInfer_State_empty_fields line h).2.1
    unfold inferState
    simp [h, ht]
  · exact inferState_of_State_ne _ h

theorem parseLine_eq_beforeInfer (line : String) : parseLine line = .ok (beforeInfer line) := by
  have h : parseLine line = .ok (inferState (beforeInfer line)) := rfl
  rw [h, inferState_beforeInfer]

/-- C11 (counterexample): on the 8-token line
`ipv4 2 tcp 6 30 SYN_SENT tcp_state=CLOSE tcp_state=` the tokens at index 6 and 7
have the form `tcp_state=V`, the last with the empty `V`, and `parseLine`
returns `State = "SYN_SENT"`, the token at index 5: neither the `V` of the last
such token (empty) nor that of the last one with a non-empty value (`CLOSE`). -/
theorem parseLine_empty_tcp_state_falls_back :
    (Fields "ipv4 2 tcp 6 30 SYN_SENT tcp_state=CLOSE tcp_state=").drop 6 =
      ["tcp_state=CLOSE", "tcp_state="] ∧
    keyValue "tcp_state" "tcp_state=CLOSE" = some "CLOSE" ∧
    keyValue "tcp_state" "tcp_state=" = some "" ∧
    lastValue "tcp_state" (Fields "ipv4 2 tcp 6 30 SYN_SENT tcp_state=CLOSE tcp_state=") = "" ∧
    parseLine "ipv4 2 tcp 6 30 SYN_SENT tcp_state=CLOSE tcp_state=" =
      .ok { Proto := "tcp", State := "SYN_SENT" } :=
  ⟨by decide, by decide, by decide, by decide, rfl⟩

/-- C11 (amended): for every line with at least 6 tokens, if some token at index 6
or later has the form `tcp_state=V` and the `V` of the last such token is not
empty, `parseLine` returns `State` equal to that `V`; if no such token exists, or
the last such `V` is empty, `State` is the token at index 5.  In both cases the
returned `State` is not empty. -/
theorem parseLine_State_resolution (line : String) (h : 5 < (Fields line).length) :
    ∃ e : Entry, parseLine line = .ok e ∧
      e.State =
        (match (((Fields line).drop 6).filterMap (keyValue "tcp_state")).getLast? with
         | some v => if v = "" then (Fields line)[5] else v
         | none => (Fields line)[5]) ∧
      e.State ≠ "" := by
  have hne : (beforeInfer line).State ≠ "" := by
    intro h0
    have := beforeInfer_State_empty line h0
    omega
  refine ⟨beforeInfer line, parseLine_eq_beforeInfer line, ?_, hne⟩
  rw [beforeInfer_State]
  unfold lastValue
  rw [List.getElem?_eq_getElem h]
  cases hl : (((Fields line).drop 6).filterMap (keyValue "tcp_state")).getLast? with
  | none => simp
  | some v =>
    simp only [Option.getD_some]

/-- Witness of C11 (amended): the line of `TestParseLine` has no `tcp_state` key and
its token at index 5 is `ESTABLISHED`; `parseLine` returns
`State = "ESTABLISHED"`. -/
theorem parseLine_State_resolution_witness :
    5 < (Fields testLine).length ∧
    (((Fields testLine).drop 6).filterMap (keyValue "tcp_state")).getLast? = none ∧
    ∃ e : Entry, parseLine testLine = .ok e ∧ e.State = "ESTABLISHED" := by
  refine ⟨by decide, by decide, ?_⟩
  obtain ⟨e, he, hs, _⟩ := parseLine_State_resolution testLine (by decide)
  refine ⟨e, he, ?_⟩
  rw [hs]
  decide

/-- C12: the `UNREPLIED` heuristic of `parseLine` is unreachable.  For every line
the function returns the record built before the heuristic, whose state and
timeout never satisfy the heuristic's condition; when the state is still empty
after the `tcp_state` / position-5 resolution, the line has fewer than 6 tokens,
no token was scanned by the key=value loop and `Timeout` is 0.  Hence a returned
`State = "UNREPLIED"` is the value of a `tcp_state=` token at index 6 or later or
the token at index 5, and a returned empty `State` comes with `Timeout = 0` and
empty `SrcIP`, `DstIP`, `SrcPort`, `DstPort`. -/
theorem UNREPLIED_heuristic_unreachable (line : String) :
    parseLine line = .ok (beforeInfer line) ∧
    ¬ ((beforeInfer line).State = "" ∧ (beforeInfer line).Timeout > 0) ∧
    ((beforeInfer line).State = "" →
      (Fields line).length < 6 ∧ (Fields line).drop 6 = [] ∧
        (beforeInfer line).Timeout = 0) ∧
    (∀ e : Entry, parseLine line = .ok e → e.State = "UNREPLIED" →
      (∃ t ∈ (Fields line).drop 6, keyValue "tcp_state" t = some "UNREPLIED") ∨
        (Fields line)[5]? = some "UNREPLIED") ∧
    (∀ e : Entry, parseLine line = .ok e → e.State = "" →
      e.Timeout = 0 ∧ e.SrcIP = "" ∧ e.DstIP = "" ∧ e.SrcPort = "" ∧ e.DstPort = "") := by
  refine ⟨parseLine_eq_beforeInfer line, ?_, ?_, ?_, ?_⟩
  · rintro ⟨h0, ht⟩
    have := (beforeInfer_State_empty_fields line h0).2.1
    omega
  · intro h0
    exact ⟨beforeInfer_State_empty line h0, (beforeInfer_State_empty_fields line h0).1,
      (beforeInfer_State_empty_fields line h0).2.1⟩
  · intro e he hs
    rw [parseLine_eq_beforeInfer] at he
    have hee : beforeInfer line = e := by injection he
    subst hee
    rw [beforeInfer_State] at hs
    by_cases hl : lastValue "tcp_state" (Fields line) = ""
    · rw [if_pos hl] at hs
      right
      cases h5 : (Fields line)[5]? with
      | none => rw [h5] at hs; exact absurd hs (by decide)
      | some v => rw [h5] at hs; simp only [Option.getD_some] at hs; rw [hs]
    · rw [if_neg hl] at hs
      left
      unfold lastValue at hs
      cases hg : (((Fields line).drop 6).filterMap (keyValue "tcp_state")).getLast? with
      | none => rw [hg] at hs; exact absurd hs (by decide)
      | some v =>
        rw [hg] at hs
        simp only [Option.getD_some] at hs
        subst hs
        have hm := List.mem_of_getLast?_eq_some hg
        rw [List.mem_filterMap] at hm
        exact hm
  · intro e he h0
    rw [parseLine_eq_beforeInfer] at he
    have hee : beforeInfer line = e := by injection he
    subst hee
    exact (beforeInfer_State_empty_fields line h0).2

/-- Witness of C12: the 3-token line `ipv4 2 tcp` reaches the heuristic with an
empty state and timeout 0 and is returned with an empty state; the 7-token line
`ipv4 2 udp 17 30 UNREPLIED src=1.1.1.1` is returned with `State = "UNREPLIED"`,
which is its token at index 5. -/
theorem UNREPLIED_heuristic_unreachable_witness :
    ((beforeInfer "ipv4 2 tcp").State = "" ∧
      (Fields "ipv4 2 tcp").length < 6 ∧ (Fields "ipv4 2 tcp").drop 6 = [] ∧
        (beforeInfer "ipv4 2 tcp").Timeout = 0) ∧
    ((beforeInfer "ipv4 2 udp 17 30 UNREPLIED src=1.1.1.1").State = "UNREPLIED" ∧
      ((∃ t ∈ (Fields "ipv4 2 udp 17 30 UNREPLIED src=1.1.1.1").drop 6,
          keyValue "tcp_state" t = some "UNREPLIED") ∨
        (Fields "ipv4 2 udp 17 30 UNREPLIED src=1.1.1.1")[5]? = some "UNREPLIED")) :=
  ⟨⟨by decide, (UNREPLIED_heuristic_unreachable "ipv4 2 tcp").2.2.1 (by decide)⟩,
   ⟨by decide,
    (UNREPLIED_heuristic_unreachable "ipv4 2 udp 17 30 UNREPLIED src=1.1.1.1").2.2.2.1 _
      (UNREPLIED_heuristic_unreachable "ipv4 2 udp 17 30 UNREPLIED src=1.1.1.1").1
      (by decide)⟩⟩

end conntrack

end NetworkAnalyzer
